import Mathlib

/-!
Shallow embedding of the core logic of `cloud_collector.py` (NEPSE data
collector): the market schedule oracle (`is_market_open`,
`get_market_schedule_info`) and the JSON normalization routine
(`normalize_data`), together with proofs of the specified properties.

Strings are modelled over their character lists; Python's Unicode-aware
`str.lower` is represented by ASCII lowering, which coincides with it on
every key exercised by the specification.
-/

/-- A zoned civil datetime in the fixed Asia/Kathmandu zone (UTC+05:45,
no daylight saving), as carried by Python's `datetime`.  The weekday is
derived from the date exactly as CPython derives it (proleptic Gregorian
ordinal), not stored. -/
structure Datetime where
  year : Nat
  month : Nat
  day : Nat
  hour : Nat
  minute : Nat
  second : Nat
  microsecond : Nat
deriving DecidableEq, Repr

/-- Gregorian leap-year test, as in Python's `calendar.isleap`. -/
def isLeapYear (y : Nat) : Bool :=
  (y % 4 == 0 && y % 100 != 0) || y % 400 == 0

/-- Days in the months January .. (m-1) of year `y` (proleptic Gregorian). -/
def daysBeforeMonth (y m : Nat) : Nat :=
  let lens : List Nat :=
    [31, if isLeapYear y then 29 else 28, 31, 30, 31, 30, 31, 31, 30, 31, 30, 31]
  (lens.take (m - 1)).sum

/-- Proleptic-Gregorian ordinal of a date, as in Python's
`date.toordinal` (ordinal 1 = January 1 of year 1). -/
def toordinal (y m d : Nat) : Nat :=
  365 * (y - 1) + (y - 1) / 4 - (y - 1) / 100 + (y - 1) / 400 + daysBeforeMonth y m + d

/-- CPython's `date.weekday()`: Monday = 0 .. Sunday = 6. -/
def Datetime.weekday (t : Datetime) : Nat :=
  (toordinal t.year t.month t.day + 6) % 7

/-- Time-of-day of a wall-clock reading, in microseconds since midnight.
On in-range fields this orders exactly as Python's same-day `datetime`
comparison does. -/
def timeVal (h m s us : Nat) : Nat :=
  ((h * 60 + m) * 60 + s) * 1000000 + us

/-- Time-of-day of a `Datetime`, in microseconds since midnight. -/
def Datetime.tod (t : Datetime) : Nat :=
  timeVal t.hour t.minute t.second t.microsecond

/-- `CloudNepseCollector.is_market_open` (cloud_collector.py lines 60-86):
Saturday (weekday 5) closed; Friday (4) open iff time-of-day lies in
[11:00, 13:00]; Sunday-Thursday (6,0,1,2,3) open iff it lies in
[11:00, 15:00]. The two window comparisons mirror
`market_open <= time <= market_close` on the same calendar day. -/
def is_market_open (t : Datetime) : Bool :=
  if t.weekday == 5 then
    false
  else if t.weekday == 4 then
    decide (timeVal 11 0 0 0 ≤ t.tod ∧ t.tod ≤ timeVal 13 0 0 0)
  else if [6, 0, 1, 2, 3].contains t.weekday then
    decide (timeVal 11 0 0 0 ≤ t.tod ∧ t.tod ≤ timeVal 15 0 0 0)
  else
    false

/-- The `day_names` list of `get_market_schedule_info`, indexed by
Python weekday (Monday = 0). -/
def day_names : List String :=
  ["Monday", "Tuesday", "Wednesday", "Thursday", "Friday", "Saturday", "Sunday"]

/-- `CloudNepseCollector.get_market_schedule_info` (lines 88-103). -/
def get_market_schedule_info (t : Datetime) : String :=
  let name := day_names.getD t.weekday ""
  if t.weekday == 5 then
    name ++ " - Market Closed"
  else if t.weekday == 4 then
    name ++ " - Trading Hours: 11:00 AM - 1:00 PM NPT"
  else if [6, 0, 1, 2, 3].contains t.weekday then
    name ++ " - Trading Hours: 11:00 AM - 3:00 PM NPT"
  else
    name ++ " - Market Closed"

/-- JSON-shaped values, as parsed from `response.json()`.  Object fields
keep their insertion order, as Python dicts do.  Numbers are modelled as
integers (the payloads the claims exercise carry no fractional values). -/
inductive JValue where
  | null : JValue
  | bool (b : Bool) : JValue
  | num (n : Int) : JValue
  | str (s : String) : JValue
  | arr (elems : List JValue) : JValue
  | obj (fields : List (String × JValue)) : JValue

/-- Python truthiness (`if not data`) restricted to JSON shapes: `None`,
`False`, `0`, `""`, `[]`, `{}` are falsy, everything else truthy. -/
def truthy : JValue → Bool
  | .null => false
  | .bool b => b
  | .num n => n != 0
  | .str s => s != ""
  | .arr elems => !elems.isEmpty
  | .obj fields => !fields.isEmpty

/-- `isinstance(record, dict)` on a JSON shape. -/
def JValue.isObj : JValue → Bool
  | .obj _ => true
  | _ => false

/-- `isinstance(data, list)` on a JSON shape. -/
def JValue.isArr : JValue → Bool
  | .arr _ => true
  | _ => false

/-- A normalized record: a Python dict with string keys in insertion
order. -/
abbrev Record : Type := List (String × JValue)

/-- Python dict assignment `d[k] = v`: an existing binding keeps its
position and gets the new value; a new key is appended at the end. -/
def dictInsert (d : Record) (k : String) (v : JValue) : Record :=
  if d.any (fun p => p.1 == k) then
    d.map (fun p => if p.1 == k then (k, v) else p)
  else
    d ++ [(k, v)]

/-- Python dict lookup `d[k]` (as an `Option`): the binding of `k`, if
present. -/
def dictGet (d : Record) (k : String) : Option JValue :=
  (d.find? (fun p => p.1 == k)).map (fun p => p.2)

/-- Left-pad the decimal representation of `n` with zeros to width `w`
(Python's `%04d`-style padding used by `isoformat`/`strftime`). -/
def padNum (w n : Nat) : String :=
  let s := toString n
  String.mk (List.replicate (w - s.length) '0') ++ s

/-- `timestamp.isoformat()` for an Asia/Kathmandu-zoned datetime:
`YYYY-MM-DDTHH:MM:SS[.ffffff]+05:45`. -/
def isoformat (t : Datetime) : String :=
  padNum 4 t.year ++ "-" ++ padNum 2 t.month ++ "-" ++ padNum 2 t.day ++ "T" ++
    padNum 2 t.hour ++ ":" ++ padNum 2 t.minute ++ ":" ++ padNum 2 t.second ++
    (if t.microsecond == 0 then "" else "." ++ padNum 6 t.microsecond) ++ "+05:45"

/-- `timestamp.strftime('%Y-%m-%d %H:%M:%S')`. -/
def strftime_npt (t : Datetime) : String :=
  padNum 4 t.year ++ "-" ++ padNum 2 t.month ++ "-" ++ padNum 2 t.day ++ " " ++
    padNum 2 t.hour ++ ":" ++ padNum 2 t.minute ++ ":" ++ padNum 2 t.second

/-- `str(key).lower().replace(' ', '_')` (cloud_collector.py lines 158,
175): lowercase every character, then replace each literal space with an
underscore.  ASCII lowering, which agrees with Python on all keys the
endpoints produce. -/
def clean_key (k : String) : String :=
  String.mk (((k.data.map Char.toLower)).map (fun c => if c == ' ' then '_' else c))

/-- The metadata dict literal built for every emitted record
(cloud_collector.py lines 146-154 and 164-172); `rid` is the synthetic
`record_id` (`"{endpoint_name}_{i+1}"` in the list branch,
`"{endpoint_name}_summary"` in the dict branch). -/
def base_record (endpoint_name : String) (timestamp : Datetime) (rid : String) : Record :=
  [("collection_timestamp", JValue.str (isoformat timestamp)),
   ("collection_time_npt", JValue.str (strftime_npt timestamp)),
   ("data_source", JValue.str endpoint_name),
   ("record_id", JValue.str rid),
   ("market_open", JValue.bool (is_market_open timestamp)),
   ("collection_method", JValue.str "cloud_automated"),
   ("market_schedule", JValue.str (get_market_schedule_info timestamp))]

/-- `for key, value in record.items(): normalized_record[clean_key] = value`
(lines 156-159 and 174-176): fold the payload fields, in order, into the
metadata record with Python dict assignment under the cleaned key. -/
def addFields (base : Record) (fields : List (String × JValue)) : Record :=
  fields.foldl (fun d p => dictInsert d (clean_key p.1) p.2) base

/-- The `for i, record in enumerate(data)` loop of the list branch
(lines 143-161): `i` is the current 0-based index; dict elements emit one
record with synthetic id `"{endpoint_name}_{i+1}"`, all other elements
are skipped. -/
def normalizeSeq (endpoint_name : String) (timestamp : Datetime) :
    Nat → List JValue → List Record
  | _, [] => []
  | i, JValue.obj fields :: rest =>
      addFields (base_record endpoint_name timestamp (endpoint_name ++ "_" ++ toString (i + 1))) fields ::
        normalizeSeq endpoint_name timestamp (i + 1) rest
  | i, _ :: rest => normalizeSeq endpoint_name timestamp (i + 1) rest

/-- `CloudNepseCollector.normalize_data` (cloud_collector.py lines
136-180): falsy payloads yield no records; a list is traversed with
`normalizeSeq`; a dict yields one `"{endpoint_name}_summary"` record;
any other shape falls through to the empty result. -/
def normalize_data (data : JValue) (endpoint_name : String) (timestamp : Datetime) :
    List Record :=
  if truthy data == false then
    []
  else
    match data with
    | JValue.arr elems => normalizeSeq endpoint_name timestamp 0 elems
    | JValue.obj fields =>
        [addFields (base_record endpoint_name timestamp (endpoint_name ++ "_summary")) fields]
    | _ => []

/-- The value the last field of `fields` whose cleaned key equals `c`
assigns, if any: the value that survives the in-order fold of
`addFields` under key `c`. -/
def lastValueFor : List (String × JValue) → String → Option JValue
  | [], _ => none
  | q :: rest, c =>
      match lastValueFor rest c with
      | some v => some v
      | none => if clean_key q.1 == c then some q.2 else none

/-- No field of `fields` has cleaned key `c`. -/
def fieldsAvoid (fields : List (String × JValue)) (c : String) : Bool :=
  fields.all (fun q => clean_key q.1 != c)

/-- No mapping inside the payload carries a key whose cleaned name is
`c` (so the metadata entry at `c` cannot be shadowed). -/
def avoidsCleanKey : JValue → String → Bool
  | JValue.arr elems, c =>
      elems.all (fun v =>
        match v with
        | JValue.obj fields => fieldsAvoid fields c
        | _ => true)
  | JValue.obj fields, c => fieldsAvoid fields c
  | _, _ => true

/-- A fixed in-range datetime used to instantiate universally quantified
theorems: Friday 2024-01-05, 11:00 NPT. -/
def sampleT : Datetime := ⟨2024, 1, 5, 11, 0, 0, 0⟩

lemma dictGet_nil (k : String) : dictGet [] k = none := rfl

lemma dictGet_cons (p : String × JValue) (d : Record) (k : String) :
    dictGet (p :: d) k = if p.1 = k then some p.2 else dictGet d k := by
  by_cases hpk : p.1 = k
  · unfold dictGet
    rw [List.find?_cons_of_pos _ (by simp [hpk])]
    simp [hpk]
  · unfold dictGet
    rw [List.find?_cons_of_neg _ (by simp [hpk])]
    simp [hpk]

lemma dictGet_replace_ne (d : Record) (k k2 : String) (v : JValue) (h : k ≠ k2) :
    dictGet (d.map (fun p => if p.1 == k2 then (k2, v) else p)) k = dictGet d k := by
  induction d with
  | nil => rfl
  | cons p d ih =>
    simp only [List.map_cons]
    by_cases hp : p.1 = k2
    · rw [if_pos (by simp [hp]), dictGet_cons, dictGet_cons]
      rw [if_neg (Ne.symm h), if_neg (by rw [hp]; exact Ne.symm h)]
      exact ih
    · rw [if_neg (by simp [hp]), dictGet_cons, dictGet_cons]
      by_cases hk : p.1 = k
      · rw [if_pos hk, if_pos hk]
      · rw [if_neg hk, if_neg hk]
        exact ih

lemma dictGet_replace_eq (d : Record) (k2 : String) (v : JValue)
    (h : d.any (fun p => p.1 == k2) = true) :
    dictGet (d.map (fun p => if p.1 == k2 then (k2, v) else p)) k2 = some v := by
  induction d with
  | nil => simp [List.any] at h
  | cons p d ih =>
    simp only [List.map_cons]
    by_cases hp : p.1 = k2
    · rw [if_pos (by simp [hp]), dictGet_cons]
      exact if_pos rfl
    · rw [if_neg (by simp [hp]), dictGet_cons, if_neg hp]
      simp only [List.any_cons, Bool.or_eq_true] at h
      rcases h with h | h
      · exact absurd (by simpa using h) hp
      · exact ih h

lemma dictGet_append_single (d : Record) (k k2 : String) (v : JValue)
    (h : d.any (fun p => p.1 == k2) = false) :
    dictGet (d ++ [(k2, v)]) k = if k = k2 then some v else dictGet d k := by
  induction d with
  | nil =>
    by_cases hk : k = k2
    · simp [dictGet_cons, hk]
    · rw [List.nil_append, dictGet_cons, if_neg (Ne.symm hk), if_neg hk]
  | cons p d ih =>
    simp only [List.any_cons, Bool.or_eq_false_iff] at h
    obtain ⟨h1, h2⟩ := h
    rw [List.cons_append, dictGet_cons, dictGet_cons]
    by_cases hk : p.1 = k
    · have hkk2 : k ≠ k2 := fun hh => by simp [hk ▸ hh] at h1
      rw [if_pos hk, if_neg hkk2, if_pos hk]
    · rw [if_neg hk, if_neg hk, ih h2]

lemma dictGet_insert (d : Record) (k k2 : String) (v : JValue) :
    dictGet (dictInsert d k2 v) k = if k = k2 then some v else dictGet d k := by
  unfold dictInsert
  cases h : d.any (fun p => p.1 == k2) with
  | true =>
    rw [if_pos rfl]
    by_cases hk : k = k2
    · subst hk
      rw [if_pos rfl]
      exact dictGet_replace_eq d k v h
    · rw [if_neg hk]
      exact dictGet_replace_ne d k k2 v hk
  | false =>
    rw [if_neg Bool.false_ne_true]
    exact dictGet_append_single d k k2 v h

lemma dictGet_addFields (fields : List (String × JValue)) (base : Record) (c : String) :
    dictGet (addFields base fields) c =
      match lastValueFor fields c with
      | some v => some v
      | none => dictGet base c := by
  induction fields generalizing base with
  | nil => rfl
  | cons q rest ih =>
    simp only [addFields, List.foldl_cons, lastValueFor]
    have step := ih (dictInsert base (clean_key q.1) q.2)
    simp only [addFields] at step
    rw [step, dictGet_insert]
    cases lastValueFor rest c with
    | some v => rfl
    | none =>
      by_cases hc : c = clean_key q.1
      · simp [hc]
      · have hcb : (clean_key q.1 == c) = false := by
          simp [Ne.symm hc]
        simp [hc, hcb]

lemma lastValueFor_of_avoid (fields : List (String × JValue)) (c : String)
    (h : fieldsAvoid fields c = true) : lastValueFor fields c = none := by
  induction fields with
  | nil => rfl
  | cons q rest ih =>
    simp only [fieldsAvoid, List.all_cons, Bool.and_eq_true, bne_iff_ne, ne_eq] at h
    obtain ⟨h1, h2⟩ := h
    have hcb : (clean_key q.1 == c) = false := by simp [h1]
    simp [lastValueFor, ih (by simpa [fieldsAvoid] using h2), hcb]

lemma normalizeSeq_eq_filterMap (name : String) (t : Datetime) (elems : List JValue) :
    ∀ n : Nat,
      normalizeSeq name t n elems =
        (List.enumFrom n elems).filterMap (fun p =>
          match p.2 with
          | JValue.obj fields =>
              some (addFields (base_record name t (name ++ "_" ++ toString (p.1 + 1))) fields)
          | _ => none) := by
  induction elems with
  | nil => intro n; rfl
  | cons x rest ih =>
    intro n
    cases x <;> simp [normalizeSeq, List.enumFrom, List.filterMap_cons, ih (n + 1)]

lemma normalizeSeq_length (name : String) (t : Datetime) (elems : List JValue) :
    ∀ n : Nat, (normalizeSeq name t n elems).length = elems.countP JValue.isObj := by
  induction elems with
  | nil => intro n; rfl
  | cons x rest ih =>
    intro n
    cases x <;> simp [normalizeSeq, List.countP_cons, JValue.isObj, ih (n + 1)]

lemma mem_normalizeSeq (name : String) (t : Datetime) (elems : List JValue) :
    ∀ (n : Nat) (r : Record), r ∈ normalizeSeq name t n elems →
      ∃ rid fields, JValue.obj fields ∈ elems ∧
        r = addFields (base_record name t rid) fields := by
  induction elems with
  | nil => intro n r hr; exact absurd hr (List.not_mem_nil r)
  | cons x rest ih =>
    intro n r hr
    cases x with
    | obj fields =>
      rcases List.mem_cons.mp hr with hr | hr
      · exact ⟨name ++ "_" ++ toString (n + 1), fields, List.mem_cons_self _ _, hr⟩
      · obtain ⟨rid, fs, hmem, hrec⟩ := ih (n + 1) r hr
        exact ⟨rid, fs, List.mem_cons_of_mem _ hmem, hrec⟩
    | null =>
      obtain ⟨rid, fs, hmem, hrec⟩ := ih (n + 1) r hr
      exact ⟨rid, fs, List.mem_cons_of_mem _ hmem, hrec⟩
    | bool b =>
      obtain ⟨rid, fs, hmem, hrec⟩ := ih (n + 1) r hr
      exact ⟨rid, fs, List.mem_cons_of_mem _ hmem, hrec⟩
    | num m =>
      obtain ⟨rid, fs, hmem, hrec⟩ := ih (n + 1) r hr
      exact ⟨rid, fs, List.mem_cons_of_mem _ hmem, hrec⟩
    | str s =>
      obtain ⟨rid, fs, hmem, hrec⟩ := ih (n + 1) r hr
      exact ⟨rid, fs, List.mem_cons_of_mem _ hmem, hrec⟩
    | arr xs =>
      obtain ⟨rid, fs, hmem, hrec⟩ := ih (n + 1) r hr
      exact ⟨rid, fs, List.mem_cons_of_mem _ hmem, hrec⟩

lemma normalize_data_of_scalar (data : JValue) (name : String) (t : Datetime)
    (h1 : data.isArr = false) (h2 : data.isObj = false) :
    normalize_data data name t = [] := by
  cases data with
  | null => rfl
  | bool b => cases b <;> rfl
  | num m => simp [normalize_data]
  | str s => simp [normalize_data]
  | arr elems => simp [JValue.isArr] at h1
  | obj fields => simp [JValue.isObj] at h2

lemma mem_normalize_data (data : JValue) (name : String) (t : Datetime) (r : Record)
    (hr : r ∈ normalize_data data name t) :
    ∃ rid fields, r = addFields (base_record name t rid) fields ∧
      ∀ c, avoidsCleanKey data c = true → fieldsAvoid fields c = true := by
  cases data with
  | arr elems =>
    cases elems with
    | nil => exact absurd hr (List.not_mem_nil r)
    | cons x rest =>
      have hr2 : r ∈ normalizeSeq name t 0 (x :: rest) := hr
      obtain ⟨rid, fields, hmem, hrec⟩ := mem_normalizeSeq name t (x :: rest) 0 r hr2
      refine ⟨rid, fields, hrec, fun c hc => ?_⟩
      simp only [avoidsCleanKey, List.all_eq_true] at hc
      simpa using hc (JValue.obj fields) hmem
  | obj fields =>
    cases fields with
    | nil => exact absurd hr (List.not_mem_nil r)
    | cons q rest =>
      have hr2 : r ∈ [addFields (base_record name t (name ++ "_summary")) (q :: rest)] := hr
      rcases List.mem_singleton.mp hr2 with rfl
      exact ⟨name ++ "_summary", q :: rest, rfl, fun c hc => by
        simpa [avoidsCleanKey] using hc⟩
  | null => exact absurd hr (List.not_mem_nil r)
  | bool b =>
    rw [normalize_data_of_scalar (JValue.bool b) name t rfl rfl] at hr
    exact absurd hr (List.not_mem_nil r)
  | num m =>
    rw [normalize_data_of_scalar (JValue.num m) name t rfl rfl] at hr
    exact absurd hr (List.not_mem_nil r)
  | str s =>
    rw [normalize_data_of_scalar (JValue.str s) name t rfl rfl] at hr
    exact absurd hr (List.not_mem_nil r)

lemma dictGet_base_market_open (name : String) (t : Datetime) (rid : String) :
    dictGet (base_record name t rid) "market_open" = some (JValue.bool (is_market_open t)) := rfl

lemma dictGet_base_market_schedule (name : String) (t : Datetime) (rid : String) :
    dictGet (base_record name t rid) "market_schedule" =
      some (JValue.str (get_market_schedule_info t)) := rfl

lemma dictGet_base_record_id (name : String) (t : Datetime) (rid : String) :
    dictGet (base_record name t rid) "record_id" = some (JValue.str rid) := rfl

lemma dictGet_addFields_of_avoid (name : String) (t : Datetime) (rid c : String)
    (fields : List (String × JValue)) (h : fieldsAvoid fields c = true) :
    dictGet (addFields (base_record name t rid) fields) c = dictGet (base_record name t rid) c := by
  rw [dictGet_addFields, lastValueFor_of_avoid _ _ h]

/-- C5: on every timestamp falling on a Friday (Python weekday 4),
`is_market_open` returns true exactly when the time-of-day lies in the
inclusive window [11:00, 13:00]; in particular Friday 11:00 and 13:00
are open while 10:59 and 13:01 are closed (2024-01-05 is a Friday). -/
theorem friday_window :
    (∀ t : Datetime, t.weekday = 4 →
      (is_market_open t = true ↔
        timeVal 11 0 0 0 ≤ t.tod ∧ t.tod ≤ timeVal 13 0 0 0)) ∧
    is_market_open ⟨2024, 1, 5, 11, 0, 0, 0⟩ = true ∧
    is_market_open ⟨2024, 1, 5, 13, 0, 0, 0⟩ = true ∧
    is_market_open ⟨2024, 1, 5, 10, 59, 0, 0⟩ = false ∧
    is_market_open ⟨2024, 1, 5, 13, 1, 0, 0⟩ = false := by
  refine ⟨?_, by decide, by decide, by decide, by decide⟩
  intro t h
  simp [is_market_open, h]

/-- Witness for C5: the Friday clause instantiated at 2024-01-05 12:30. -/
theorem friday_window_witness :
    Datetime.weekday ⟨2024, 1, 5, 12, 30, 0, 0⟩ = 4 ∧
      (is_market_open ⟨2024, 1, 5, 12, 30, 0, 0⟩ = true ↔
        timeVal 11 0 0 0 ≤ Datetime.tod ⟨2024, 1, 5, 12, 30, 0, 0⟩ ∧
          Datetime.tod ⟨2024, 1, 5, 12, 30, 0, 0⟩ ≤ timeVal 13 0 0 0) :=
  ⟨by decide, friday_window.1 ⟨2024, 1, 5, 12, 30, 0, 0⟩ (by decide)⟩

/-- C6: on every timestamp falling on Sunday (6), Monday (0), Tuesday
(1), Wednesday (2) or Thursday (3), `is_market_open` returns true
exactly when the time-of-day lies in the inclusive window
[11:00, 15:00]. -/
theorem regular_day_window :
    ∀ t : Datetime,
      t.weekday = 6 ∨ t.weekday = 0 ∨ t.weekday = 1 ∨ t.weekday = 2 ∨ t.weekday = 3 →
      (is_market_open t = true ↔
        timeVal 11 0 0 0 ≤ t.tod ∧ t.tod ≤ timeVal 15 0 0 0) := by
  intro t h
  rcases h with h | h | h | h | h <;> simp [is_market_open, h]

/-- Witness for C6: instantiated at Sunday 2024-01-07 12:00. -/
theorem regular_day_window_witness :
    Datetime.weekday ⟨2024, 1, 7, 12, 0, 0, 0⟩ = 6 ∧
      (is_market_open ⟨2024, 1, 7, 12, 0, 0, 0⟩ = true ↔
        timeVal 11 0 0 0 ≤ Datetime.tod ⟨2024, 1, 7, 12, 0, 0, 0⟩ ∧
          Datetime.tod ⟨2024, 1, 7, 12, 0, 0, 0⟩ ≤ timeVal 15 0 0 0) :=
  ⟨by decide, regular_day_window ⟨2024, 1, 7, 12, 0, 0, 0⟩ (Or.inl (by decide))⟩

/-- C7: on every timestamp falling on a Saturday (Python weekday 5),
`is_market_open` returns false regardless of the time-of-day. -/
theorem saturday_closed :
    ∀ t : Datetime, t.weekday = 5 → is_market_open t = false := by
  intro t h
  simp [is_market_open, h]

/-- Witness for C7: instantiated at Saturday 2024-01-06 12:00 (inside
the regular trading window, still closed). -/
theorem saturday_closed_witness :
    Datetime.weekday ⟨2024, 1, 6, 12, 0, 0, 0⟩ = 5 ∧
      is_market_open ⟨2024, 1, 6, 12, 0, 0, 0⟩ = false :=
  ⟨by decide, saturday_closed ⟨2024, 1, 6, 12, 0, 0, 0⟩ (by decide)⟩

/-- C9: `get_market_schedule_info` returns "<Day> - Market Closed" on
Saturday, the Friday short-window string on Friday, and the regular
window string on Sunday-Thursday, with the correct English weekday name
and independently of the time-of-day and of the open/closed outcome. -/
theorem schedule_description :
    ∀ t : Datetime,
      (t.weekday = 5 → get_market_schedule_info t = "Saturday - Market Closed") ∧
      (t.weekday = 4 →
        get_market_schedule_info t = "Friday - Trading Hours: 11:00 AM - 1:00 PM NPT") ∧
      (t.weekday = 6 →
        get_market_schedule_info t = "Sunday - Trading Hours: 11:00 AM - 3:00 PM NPT") ∧
      (t.weekday = 0 →
        get_market_schedule_info t = "Monday - Trading Hours: 11:00 AM - 3:00 PM NPT") ∧
      (t.weekday = 1 →
        get_market_schedule_info t = "Tuesday - Trading Hours: 11:00 AM - 3:00 PM NPT") ∧
      (t.weekday = 2 →
        get_market_schedule_info t = "Wednesday - Trading Hours: 11:00 AM - 3:00 PM NPT") ∧
      (t.weekday = 3 →
        get_market_schedule_info t = "Thursday - Trading Hours: 11:00 AM - 3:00 PM NPT") := by
  intro t
  refine ⟨fun h => ?_, fun h => ?_, fun h => ?_, fun h => ?_, fun h => ?_, fun h => ?_,
    fun h => ?_⟩ <;>
    simp [get_market_schedule_info, day_names, h]

/-- Witness for C9: the Saturday and Friday clauses instantiated at
2024-01-06 and 2024-01-05. -/
theorem schedule_description_witness :
    Datetime.weekday ⟨2024, 1, 6, 9, 0, 0, 0⟩ = 5 ∧
      get_market_schedule_info ⟨2024, 1, 6, 9, 0, 0, 0⟩ = "Saturday - Market Closed" ∧
      get_market_schedule_info ⟨2024, 1, 5, 9, 0, 0, 0⟩ =
        "Friday - Trading Hours: 11:00 AM - 1:00 PM NPT" :=
  ⟨by decide, (schedule_description ⟨2024, 1, 6, 9, 0, 0, 0⟩).1 (by decide),
    (schedule_description ⟨2024, 1, 5, 9, 0, 0, 0⟩).2.1 (by decide)⟩

/-- C8: `normalize_data` is a total function on JSON shapes (the Lean
embedding is a total function, so no exception is modelled at all), and
any payload that is neither a list nor a mapping yields the empty
sequence, as does a list none of whose elements is a mapping. -/
theorem normalize_defensive :
    (∀ (data : JValue) (name : String) (t : Datetime),
       data.isArr = false → data.isObj = false → normalize_data data name t = []) ∧
    (∀ (elems : List JValue) (name : String) (t : Datetime),
       (∀ x ∈ elems, x.isObj = false) → normalize_data (JValue.arr elems) name t = []) := by
  constructor
  · exact fun data name t h1 h2 => normalize_data_of_scalar data name t h1 h2
  · intro elems name t h
    apply List.length_eq_zero.mp
    cases elems with
    | nil => rfl
    | cons x rest =>
      have e : normalize_data (JValue.arr (x :: rest)) name t =
          normalizeSeq name t 0 (x :: rest) := rfl
      rw [e, normalizeSeq_length]
      rw [List.countP_eq_zero]
      intro a ha
      simp [h a ha]

/-- Witness for C8: a scalar payload and an array-of-scalars payload
both yield the empty sequence. -/
theorem normalize_defensive_witness :
    normalize_data (JValue.str "scalar") "floorsheet" sampleT = [] ∧
    normalize_data (JValue.arr [JValue.num 1, JValue.str "x"]) "floorsheet" sampleT = [] :=
  ⟨normalize_defensive.1 (JValue.str "scalar") "floorsheet" sampleT rfl rfl,
   normalize_defensive.2 [JValue.num 1, JValue.str "x"] "floorsheet" sampleT (by decide)⟩

/-- C10: an empty mapping payload yields zero records (not one
"summary" record), because the leading `if not data` guard treats every
falsy payload — empty mapping, empty list, None, 0, False, empty string
— uniformly as absent data before the shape dispatch. -/
theorem empty_mapping_yields_no_records :
    (∀ (name : String) (t : Datetime), normalize_data (JValue.obj []) name t = []) ∧
    (∀ (data : JValue) (name : String) (t : Datetime),
       truthy data = false → normalize_data data name t = []) ∧
    truthy (JValue.obj []) = false ∧ truthy (JValue.arr []) = false ∧
    truthy JValue.null = false ∧ truthy (JValue.num 0) = false ∧
    truthy (JValue.bool false) = false ∧ truthy (JValue.str "") = false := by
  refine ⟨fun name t => rfl, ?_, rfl, rfl, rfl, by decide, rfl, by decide⟩
  intro data name t h
  unfold normalize_data
  rw [if_pos (by simp [h])]

/-- Witness for C10: the falsy-payload clause instantiated at the empty
mapping. -/
theorem empty_mapping_yields_no_records_witness :
    truthy (JValue.obj []) = false ∧ normalize_data (JValue.obj []) "summary" sampleT = [] :=
  ⟨rfl, empty_mapping_yields_no_records.2.1 (JValue.obj []) "summary" sampleT rfl⟩

/-- C1 (counterexample): a list payload containing one non-mapping
element yields zero records, not one record per list entry, so the
record count does not equal the list length. -/
theorem record_count_counterexample :
    (normalize_data (JValue.arr [JValue.str "not-a-mapping"]) "floorsheet" sampleT).length ≠
      [JValue.str "not-a-mapping"].length := by decide

/-- C1 (amended): for a list payload the number of records equals the
number of mapping entries of the list (non-mapping entries are skipped);
a non-empty mapping payload yields exactly one record; a falsy (empty or
missing) payload yields zero records. -/
theorem record_counts :
    (∀ (name : String) (t : Datetime) (elems : List JValue),
       (normalize_data (JValue.arr elems) name t).length = elems.countP JValue.isObj) ∧
    (∀ (name : String) (t : Datetime) (fields : List (String × JValue)), fields ≠ [] →
       (normalize_data (JValue.obj fields) name t).length = 1) ∧
    (∀ (name : String) (t : Datetime) (data : JValue), truthy data = false →
       (normalize_data data name t).length = 0) := by
  refine ⟨?_, ?_, ?_⟩
  · intro name t elems
    cases elems with
    | nil => rfl
    | cons x rest =>
      have e : normalize_data (JValue.arr (x :: rest)) name t =
          normalizeSeq name t 0 (x :: rest) := rfl
      rw [e, normalizeSeq_length]
  · intro name t fields h
    cases fields with
    | nil => exact absurd rfl h
    | cons q rest => rfl
  · intro name t data h
    unfold normalize_data
    rw [if_pos (by simp [h])]
    rfl

/-- Witness for the amended C1: a one-field mapping payload yields
exactly one record. -/
theorem record_counts_witness :
    ([("TotalTurnover", JValue.num 5000)] : List (String × JValue)) ≠ [] ∧
      (normalize_data (JValue.obj [("TotalTurnover", JValue.num 5000)]) "summary"
        sampleT).length = 1 :=
  ⟨List.cons_ne_nil _ _,
   record_counts.2.1 "summary" sampleT [("TotalTurnover", JValue.num 5000)]
     (List.cons_ne_nil _ _)⟩

/-- C2: every payload key is inserted under its cleaned name (lowercase,
spaces to underscores, nothing else — camel case stays fused), after the
metadata keys, so the last payload field cleaning to a given key decides
the emitted value even when it collides with a metadata key such as
`data_source`. -/
theorem payload_key_merge :
    (∀ (name : String) (t : Datetime) (fields : List (String × JValue)) (k : String) (v : JValue),
       lastValueFor fields (clean_key k) = some v →
       ∀ r ∈ normalize_data (JValue.arr [JValue.obj fields]) name t,
         dictGet r (clean_key k) = some v) ∧
    clean_key "TotalTurnover" = "totalturnover" ∧
    clean_key "Last Traded Price" = "last_traded_price" ∧
    (∀ (name : String) (t : Datetime),
       ∀ r ∈ normalize_data (JValue.arr [JValue.obj [("data_source", JValue.str "spoofed")]])
           name t,
         dictGet r "data_source" = some (JValue.str "spoofed")) := by
  refine ⟨?_, by decide, by decide, ?_⟩
  · intro name t fields k v hlast r hr
    have e : normalize_data (JValue.arr [JValue.obj fields]) name t =
        [addFields (base_record name t (name ++ "_" ++ toString (0 + 1))) fields] := rfl
    rw [e] at hr
    rcases List.mem_singleton.mp hr with rfl
    rw [dictGet_addFields, hlast]
  · intro name t r hr
    have e : normalize_data (JValue.arr [JValue.obj [("data_source", JValue.str "spoofed")]])
        name t =
        [addFields (base_record name t (name ++ "_" ++ toString (0 + 1)))
          [("data_source", JValue.str "spoofed")]] := rfl
    rw [e] at hr
    rcases List.mem_singleton.mp hr with rfl
    rfl

/-- Witness for C2: the general key-insertion clause instantiated at the
payload `[{"Last Traded Price": 100}]`. -/
theorem payload_key_merge_witness :
    lastValueFor [("Last Traded Price", JValue.num 100)] (clean_key "Last Traded Price") =
        some (JValue.num 100) ∧
      dictGet
        (addFields (base_record "live_market" sampleT ("live_market" ++ "_" ++ toString (0 + 1)))
          [("Last Traded Price", JValue.num 100)])
        (clean_key "Last Traded Price") = some (JValue.num 100) :=
  ⟨rfl,
   payload_key_merge.1 "live_market" sampleT [("Last Traded Price", JValue.num 100)]
     "Last Traded Price" (JValue.num 100) rfl _ (List.mem_singleton.mpr rfl)⟩

lemma market_open_field_of_avoid (name : String) (t : Datetime) (data : JValue) (r : Record)
    (hr : r ∈ normalize_data data name t) (hav : avoidsCleanKey data "market_open" = true) :
    dictGet r "market_open" = some (JValue.bool (is_market_open t)) := by
  obtain ⟨rid, fields, rfl, havf⟩ := mem_normalize_data data name t r hr
  rw [dictGet_addFields_of_avoid name t rid _ fields (havf _ hav), dictGet_base_market_open]

lemma market_schedule_field_of_avoid (name : String) (t : Datetime) (data : JValue) (r : Record)
    (hr : r ∈ normalize_data data name t) (hav : avoidsCleanKey data "market_schedule" = true) :
    dictGet r "market_schedule" = some (JValue.str (get_market_schedule_info t)) := by
  obtain ⟨rid, fields, rfl, havf⟩ := mem_normalize_data data name t r hr
  rw [dictGet_addFields_of_avoid name t rid _ fields (havf _ hav), dictGet_base_market_schedule]

/-- C3 (amended): in a list payload each non-mapping element is silently skipped
and each mapping element at 0-based index i yields exactly one record
built on the metadata base whose synthetic `record_id` is
`"{name}_{i+1}"` (its original position, 1-based); on the spec's example
`[{"A": 1}, "not-a-mapping", {"B": 2}]` exactly two records come out and
their `record_id` fields are `"{name}_1"` and `"{name}_3"`.  (Amended
from C3: the emitted `record_id` field can be shadowed by a payload key
cleaning to "record_id", per the C2 merge order; the synthetic
positional id always sits in the metadata base.) -/
theorem skip_and_positions :
    (∀ (name : String) (t : Datetime) (elems : List JValue),
       normalize_data (JValue.arr elems) name t =
         (List.enumFrom 0 elems).filterMap (fun p =>
           match p.2 with
           | JValue.obj fields =>
               some (addFields (base_record name t (name ++ "_" ++ toString (p.1 + 1))) fields)
           | _ => none)) ∧
    (∀ (name : String) (t : Datetime),
       (normalize_data (JValue.arr [JValue.obj [("A", JValue.num 1)],
           JValue.str "not-a-mapping", JValue.obj [("B", JValue.num 2)]]) name t).map
           (fun r => dictGet r "record_id") =
         [some (JValue.str (name ++ "_1")), some (JValue.str (name ++ "_3"))]) := by
  constructor
  · intro name t elems
    cases elems with
    | nil => rfl
    | cons x rest =>
      have e : normalize_data (JValue.arr (x :: rest)) name t =
          normalizeSeq name t 0 (x :: rest) := rfl
      rw [e, normalizeSeq_eq_filterMap]
  · intro name t
    have e : normalize_data (JValue.arr [JValue.obj [("A", JValue.num 1)],
        JValue.str "not-a-mapping", JValue.obj [("B", JValue.num 2)]]) name t =
        [addFields (base_record name t (name ++ "_" ++ toString (0 + 1))) [("A", JValue.num 1)],
         addFields (base_record name t (name ++ "_" ++ toString (2 + 1)))
           [("B", JValue.num 2)]] := rfl
    rw [e]
    simp only [List.map_cons, List.map_nil]
    rw [dictGet_addFields_of_avoid name t _ "record_id" _ (by decide),
        dictGet_addFields_of_avoid name t _ "record_id" _ (by decide),
        dictGet_base_record_id, dictGet_base_record_id,
        String.append_assoc, String.append_assoc]
    rfl

/-- Witness for C3: the characterization instantiated on the spec's
sample list at the sample timestamp. -/
theorem skip_and_positions_witness :
    normalize_data (JValue.arr [JValue.obj [("A", JValue.num 1)], JValue.str "not-a-mapping",
        JValue.obj [("B", JValue.num 2)]]) "top_gainers" sampleT =
      (List.enumFrom 0 [JValue.obj [("A", JValue.num 1)], JValue.str "not-a-mapping",
          JValue.obj [("B", JValue.num 2)]]).filterMap (fun p =>
        match p.2 with
        | JValue.obj fields =>
            some (addFields
              (base_record "top_gainers" sampleT ("top_gainers" ++ "_" ++ toString (p.1 + 1)))
              fields)
        | _ => none) :=
  skip_and_positions.1 "top_gainers" sampleT
    [JValue.obj [("A", JValue.num 1)], JValue.str "not-a-mapping", JValue.obj [("B", JValue.num 2)]]

/-- C4 (amended): for a fixed run timestamp t every emitted record is built on a
metadata base carrying `market_open = is_market_open t` and
`market_schedule = get_market_schedule_info t`; whenever no payload key
cleans to one of those two names (the merge order lets payload keys
shadow metadata, cf. C2), the emitted record's fields equal those oracle
values, so any two records of the same run agree on both fields across
all payloads and endpoints. -/
theorem oracle_metadata_uniform :
    (∀ (name : String) (t : Datetime) (data : JValue) (r : Record),
       r ∈ normalize_data data name t →
       ∃ rid fields, r = addFields (base_record name t rid) fields) ∧
    (∀ (name : String) (t : Datetime) (rid : String),
       dictGet (base_record name t rid) "market_open" =
           some (JValue.bool (is_market_open t)) ∧
         dictGet (base_record name t rid) "market_schedule" =
           some (JValue.str (get_market_schedule_info t))) ∧
    (∀ (name : String) (t : Datetime) (data : JValue) (r : Record),
       r ∈ normalize_data data name t → avoidsCleanKey data "market_open" = true →
       dictGet r "market_open" = some (JValue.bool (is_market_open t))) ∧
    (∀ (name : String) (t : Datetime) (data : JValue) (r : Record),
       r ∈ normalize_data data name t → avoidsCleanKey data "market_schedule" = true →
       dictGet r "market_schedule" = some (JValue.str (get_market_schedule_info t))) ∧
    (∀ (name1 name2 : String) (t : Datetime) (d1 d2 : JValue) (r1 r2 : Record),
       r1 ∈ normalize_data d1 name1 t → r2 ∈ normalize_data d2 name2 t →
       avoidsCleanKey d1 "market_open" = true → avoidsCleanKey d2 "market_open" = true →
       avoidsCleanKey d1 "market_schedule" = true → avoidsCleanKey d2 "market_schedule" = true →
       dictGet r1 "market_open" = dictGet r2 "market_open" ∧
         dictGet r1 "market_schedule" = dictGet r2 "market_schedule") := by
  refine ⟨?_, ?_, ?_, ?_, ?_⟩
  · intro name t data r hr
    obtain ⟨rid, fields, hrec, _⟩ := mem_normalize_data data name t r hr
    exact ⟨rid, fields, hrec⟩
  · exact fun name t rid => ⟨rfl, rfl⟩
  · exact market_open_field_of_avoid
  · exact market_schedule_field_of_avoid
  · intro name1 name2 t d1 d2 r1 r2 h1 h2 ha1 ha2 hb1 hb2
    constructor
    · rw [market_open_field_of_avoid name1 t d1 r1 h1 ha1,
          market_open_field_of_avoid name2 t d2 r2 h2 ha2]
    · rw [market_schedule_field_of_avoid name1 t d1 r1 h1 hb1,
          market_schedule_field_of_avoid name2 t d2 r2 h2 hb2]

/-- Witness for C4: the market_open clause instantiated at the payload
`[{"A": 1}]` with endpoint "summary" at the sample timestamp. -/
theorem oracle_metadata_uniform_witness :
    dictGet
        (addFields (base_record "summary" sampleT ("summary" ++ "_" ++ toString (0 + 1)))
          [("A", JValue.num 1)]) "market_open" =
      some (JValue.bool (is_market_open sampleT)) :=
  oracle_metadata_uniform.2.2.1 "summary" sampleT (JValue.arr [JValue.obj [("A", JValue.num 1)]])
    _ (List.mem_singleton.mpr rfl) rfl

/-- C3 (counterexample): a payload key "record_id" shadows the synthetic
positional identifier, so the emitted record's `record_id` field is not
`"{sourceName}_1"` for the mapping at position 1. -/
theorem record_id_shadow_counterexample :
    dictGet ((normalize_data (JValue.arr [JValue.obj [("record_id", JValue.str "x")]])
        "floorsheet" sampleT).headD []) "record_id" ≠ some (JValue.str "floorsheet_1") := by
  intro h
  have e : dictGet ((normalize_data (JValue.arr [JValue.obj [("record_id", JValue.str "x")]])
      "floorsheet" sampleT).headD []) "record_id" = some (JValue.str "x") := rfl
  have h2 : JValue.str "x" = JValue.str "floorsheet_1" := Option.some.inj (e ▸ h)
  exact absurd (JValue.str.inj h2) (by decide)

/-- C4 (counterexample): a payload key "market_open" shadows the oracle
boolean, so the emitted record's `market_open` field differs from
`is_market_open t` for that run timestamp. -/
theorem market_open_shadow_counterexample :
    dictGet ((normalize_data (JValue.arr [JValue.obj [("market_open", JValue.str "spoofed")]])
        "summary" sampleT).headD []) "market_open" ≠
      some (JValue.bool (is_market_open sampleT)) := by
  intro h
  have e : dictGet ((normalize_data (JValue.arr [JValue.obj [("market_open", JValue.str "spoofed")]])
      "summary" sampleT).headD []) "market_open" = some (JValue.str "spoofed") := rfl
  exact JValue.noConfusion (Option.some.inj (e ▸ h))
